import Mathlib

/-!
Verification of the snapshot/diff engine of `blenddiff.py` (class `BlendDiff`).

The Python source is shallowly embedded: Python dicts become insertion-ordered
association lists with overwrite-on-insert semantics, Python values become the
inductive type `PyVal`, Blender property values become `BVal`, and the RNA
introspection surface (`bl_rna.properties`) becomes the inductive `RnaObj`.
The cryptographic hash `blake2s` is modelled as an injective encoding of the
exact byte stream the source feeds into it (the concatenation of the chunks
passed to `h.update`); no claim depends on properties of the real compression
function.  Floating point numbers are modelled as opaque repr tokens; no claim
exercises floating-point arithmetic or int/float cross-type equality.
-/

set_option autoImplicit false

namespace BlendDiff

/-- Serialized property values as they appear in an entity's props map:
the JSON-encodable primitives produced by `_serialise` plus `none`
(Python `None`, stored directly by `_walk_rna` for null pointer props). -/
inductive PyVal where
  | none
  | bool (b : Bool)
  | int (n : Int)
  | float (tok : String)
  | str (s : String)
  | list (xs : List PyVal)
deriving Repr

mutual
/-- Python `==` on the values above: `True == 1` and `False == 0` hold
(bool is an int subclass); lists compare pointwise; float tokens compare
by token (int/float cross-type numeric equality is not modelled; no claim
exercises it). -/
def pyBeq : PyVal → PyVal → Bool
  | .none, .none => true
  | .bool a, .bool b => a == b
  | .bool a, .int n => (if a then (1 : Int) else 0) == n
  | .int n, .bool a => n == (if a then (1 : Int) else 0)
  | .int m, .int n => m == n
  | .float s, .float t => s == t
  | .str s, .str t => s == t
  | .list xs, .list ys => pyBeqList xs ys
  | _, _ => false

def pyBeqList : List PyVal → List PyVal → Bool
  | [], [] => true
  | x :: xs, y :: ys => pyBeq x y && pyBeqList xs ys
  | _, _ => false
end

instance : BEq PyVal := ⟨pyBeq⟩

/-- Comma separated join, as in Python's `", ".join`. -/
def sepComma : List String → String
  | [] => ""
  | [s] => s
  | s :: t => s ++ ", " ++ sepComma t

mutual
/-- Python `repr` of a serialized value (used for elements inside lists). -/
def pyRep : PyVal → String
  | .none => "None"
  | .bool b => if b then "True" else "False"
  | .int n => toString n
  | .float t => t
  | .str s => "'" ++ s ++ "'"
  | .list xs => "[" ++ sepComma (pyRepList xs) ++ "]"

def pyRepList : List PyVal → List String
  | [] => []
  | x :: xs => pyRep x :: pyRepList xs
end

/-- Python `str` of a serialized value; agrees with `repr` except on strings. -/
def pyStr : PyVal → String
  | .str s => s
  | v => pyRep v

/-- Python dict membership test (`k in d`). -/
def dContains {α β : Type} [BEq α] (l : List (α × β)) (k : α) : Bool :=
  l.any fun p => p.1 == k

/-- Lookup of the (unique) binding for a key: Python `d[k]` / `d.get(k)`.
Returns the first binding; inserts keep keys unique, so it is the only one. -/
def dGet? {α β : Type} [BEq α] : List (α × β) → α → Option β
  | [], _ => Option.none
  | (k', v) :: t, k => if k' == k then some v else dGet? t k

/-- Python dict assignment `d[k] = v`: overwrite in place if the key is
present (keeping its position, as CPython dicts do), else append. -/
def dInsert {α β : Type} [BEq α] : List (α × β) → α → β → List (α × β)
  | [], k, v => [(k, v)]
  | (k', v') :: t, k, v =>
      if k' == k then (k', v) :: t else (k', v') :: dInsert t k v

/-- Python `d.update(m)`: fold the bindings of `m` into `d`, overwriting. -/
def dUpdate {α β : Type} [BEq α] (l m : List (α × β)) : List (α × β) :=
  m.foldl (fun acc p => dInsert acc p.1 p.2) l

/-- Python `d.setdefault(k, v)`: insert only when the key is absent. -/
def dSetdefault {α β : Type} [BEq α] (l : List (α × β)) (k : α) (v : β) :
    List (α × β) :=
  match dGet? l k with
  | some _ => l
  | Option.none => l ++ [(k, v)]

/-- The keys of a dict, in insertion order. -/
def keysOf {α β : Type} (l : List (α × β)) : List α :=
  l.map Prod.fst

/-- Concatenation of a list of strings (the byte stream fed to a hash). -/
def strConcat : List String → String
  | [] => ""
  | s :: t => s ++ strConcat t

/-- Python `k.endswith(s)`. -/
def strEndsWith (k s : String) : Bool :=
  s.data == k.data.drop (k.data.length - s.data.length)

/-- Raw property values as handed to `_serialise` by the host: Python
primitives, the `mathutils` numeric containers, Python lists/tuples, and
anything else (`other` carries what Python `str()` would print for it). -/
inductive BVal where
  | bool (b : Bool)
  | int (n : Int)
  | float (tok : String)
  | str (s : String)
  | vector (xs : List String)
  | color (xs : List String)
  | euler (xs : List String)
  | quat (xs : List String)
  | matrix (rows : List (List String))
  | pylist (xs : List BVal)
  | other (rep : String)

mutual
/-- Python `repr` of a raw host value, used only for the string fallback of
`_serialise` on non-numeric lists; the exact text of the `mathutils` cases
is an approximation that no claim depends on. -/
def bRep : BVal → String
  | .bool b => if b then "True" else "False"
  | .int n => toString n
  | .float t => t
  | .str s => "'" ++ s ++ "'"
  | .vector xs => "Vector((" ++ sepComma xs ++ "))"
  | .color xs => "Color((" ++ sepComma xs ++ "))"
  | .euler xs => "Euler((" ++ sepComma xs ++ "))"
  | .quat xs => "Quaternion((" ++ sepComma xs ++ "))"
  | .matrix rows => "Matrix((" ++ sepComma (rows.map fun r => "(" ++ sepComma r ++ ")") ++ "))"
  | .pylist xs => "[" ++ sepComma (bRepList xs) ++ "]"
  | .other rep => rep

def bRepList : List BVal → List String
  | [] => []
  | x :: xs => bRep x :: bRepList xs
end

/-- Python `isinstance(x, numbers.Number)` for the modelled values: `bool`
is a subclass of `int`, so it counts as a `Number`. -/
def isNum : BVal → Bool
  | .bool _ => true
  | .int _ => true
  | .float _ => true
  | _ => false

/-- The identity embedding of a numeric element used by `list(val)` in
`_serialise`; only reached under the `isNum` guard (the `.none` default is
unreachable there). -/
def numPy : BVal → PyVal
  | .bool b => .bool b
  | .int n => .int n
  | .float t => .float t
  | _ => .none

/-- Embedding of `BlendDiff._serialise`: common Blender types into
JSON-compatible primitives, with a string-representation fallback. -/
def serialise : BVal → PyVal
  | .bool b => .bool b
  | .int n => .int n
  | .float t => .float t
  | .str s => .str s
  | .vector xs => .list (xs.map PyVal.float)
  | .color xs => .list (xs.map PyVal.float)
  | .euler xs => .list (xs.map PyVal.float)
  | .quat xs => .list (xs.map PyVal.float)
  | .matrix rows => .list (rows.map fun r => PyVal.list (r.map PyVal.float))
  | .pylist xs =>
      if xs.all isNum then .list (xs.map numPy) else .str (bRep (.pylist xs))
  | .other rep => .str rep

mutual
/-- A value is JSON-encodable: bool, int, float, str, or a nested list of
such (`None` and anything else are not). -/
def jsonEncodable : PyVal → Bool
  | .none => false
  | .bool _ => true
  | .int _ => true
  | .float _ => true
  | .str _ => true
  | .list xs => jsonEncodableList xs

def jsonEncodableList : List PyVal → Bool
  | [] => true
  | x :: xs => jsonEncodable x && jsonEncodableList xs
end

/-- Policy: RNA property types treated as primitives (`PRIMITIVE_TYPES`). -/
def PRIMITIVE_TYPES : List String :=
  ["BOOLEAN", "ENUM", "FLOAT", "INT", "STRING"]

/-- Policy: `bpy.data` collections excluded from snapshots (`SKIP_IDB_COLLS`). -/
def SKIP_IDB_COLLS : List String :=
  ["batch_remove", "bl_rna", "filepath", "is_dirty", "is_saved",
   "orphans_purge", "rna_type", "temp_data", "user_map",
   "window_managers", "workspaces"]

/-- Policy: property-path suffixes excluded from traversal (`SKIP_RNA_PATHS`). -/
def SKIP_RNA_PATHS : List String :=
  ["edges", "loops", "matrix_world", "pixels", "polygons", "rna_type",
   "tiles", "vertices"]

/-- A property path that matches no excluded suffix of the policy. -/
def goodKey (k : String) : Prop :=
  ∀ s ∈ SKIP_RNA_PATHS, strEndsWith k s = false

mutual
/-- An RNA struct as seen through `bl_rna.properties`: the ordered list of
its property descriptors. -/
inductive RnaObj where
  | mk (props : List RnaProp)

/-- One RNA property descriptor together with the value `getattr` yields
for it: identifier, `prop.type` tag, `prop.is_readonly`,
`prop.is_collection`, and the runtime value. -/
inductive RnaProp where
  | mk (identifier : String) (ptype : String) (readonly : Bool)
       (iscoll : Bool) (value : PropVal)

/-- The result of `getattr(rna_obj, prop.identifier)`: a plain value, a null
pointer, a pointer to a top-level ID datablock, an embedded struct, a
collection (whose iteration may raise after yielding a prefix of its items,
recorded in `err`), or a raise from `getattr` itself. -/
inductive PropVal where
  | prim (v : BVal)
  | ptrNone
  | ptrID (cls nameFull : String)
  | ptrStruct (s : RnaObj)
  | coll (items : List CollItem) (err : Option String)
  | raises (msg : String)

/-- One element of an RNA collection: either a top-level ID datablock
(emitted as a reference string) or an embedded struct (recursed into);
`nm` is its optional `name` attribute (index is used when absent). -/
inductive CollItem where
  | idRef (cls nameFull : String) (nm : Option String)
  | sub (nm : Option String) (s : RnaObj)
end

/-- The value `_serialise` receives in the primitive and fallback branches;
the non-`prim` cases can only reach `_serialise` for exotic property-type
tags and are rendered the way Python `str()` would show the host object
(approximate text; no claim depends on it). -/
def propRaw : PropVal → BVal
  | .prim v => v
  | .ptrNone => .other "None"
  | .ptrID c n => .other ("<bpy_struct, " ++ c ++ "(" ++ n ++ ")>")
  | .ptrStruct _ => .other "<bpy_struct>"
  | .coll _ _ => .other "<bpy_collection>"
  | .raises m => .other ("<raises:" ++ m ++ ">")

/-- Name attribute of a collection item (`getattr(item, "name", str(idx))`
uses the index when this is absent). -/
def CollItem.itemName : CollItem → Option String
  | .idRef _ _ n => n
  | .sub n _ => n

/-- The extended property path `f"{base}.{prop.identifier}" if base else
prop.identifier`. -/
def pathOf (base ident : String) : String :=
  if base == "" then ident else base ++ "." ++ ident

/-- The bracketed collection subpath `f"{path}[{subkey}]"` where `subkey`
is the item's `name` attribute or its index. -/
def subpathOf (path : String) (nm : Option String) (idx : Nat) : String :=
  path ++ "[" ++
    (match nm with | some s => s | Option.none => toString idx) ++ "]"

mutual
/-- Embedding of `BlendDiff._walk_rna`: flatten an RNA struct into a
path-to-value dict. -/
def walkRna : RnaObj → String → List (String × PyVal)
  | .mk ps, base => walkProps ps base []

/-- The `for prop in rna_obj.bl_rna.properties` loop of `_walk_rna`,
threading the `out` dict through `walkPropStep` for each property. -/
def walkProps : List RnaProp → String → List (String × PyVal) →
    List (String × PyVal)
  | [], _, out => out
  | p :: rest, base, out => walkProps rest base (walkPropStep p base out)

/-- One iteration of the `_walk_rna` loop: skip read-only and `rna_type`
properties, skip excluded path suffixes, then dispatch as the source does
(primitive types, then `POINTER`, then collections, then the serialise
fallback).  The source's single dispatch is distributed here over the
constructors of the runtime value; each arm keeps the source's check
order, so the two forms agree case by case. -/
def walkPropStep : RnaProp → String → List (String × PyVal) →
    List (String × PyVal)
  | .mk ident ptype ro icoll v, base, out =>
    if ro || ident == "rna_type" then out
    else if SKIP_RNA_PATHS.any
        (fun s => strEndsWith (pathOf base ident) s) then out
    else
      match v with
      | .raises msg =>
          dInsert out (pathOf base ident) (.str ("<error:" ++ msg ++ ">"))
      | .prim bv =>
        if PRIMITIVE_TYPES.contains ptype then
          dInsert out (pathOf base ident) (serialise bv)
        else if ptype == "POINTER" then dUpdate out []
        else if icoll then
          dInsert out (pathOf base ident) (.str "<error:not iterable>")
        else dInsert out (pathOf base ident) (serialise bv)
      | .ptrNone =>
        if PRIMITIVE_TYPES.contains ptype then
          dInsert out (pathOf base ident) (serialise (propRaw .ptrNone))
        else if ptype == "POINTER" then
          dInsert out (pathOf base ident) PyVal.none
        else if icoll then
          dInsert out (pathOf base ident) (.str "<error:not iterable>")
        else dInsert out (pathOf base ident) (serialise (propRaw .ptrNone))
      | .ptrID c n =>
        if PRIMITIVE_TYPES.contains ptype then
          dInsert out (pathOf base ident) (serialise (propRaw (.ptrID c n)))
        else if ptype == "POINTER" then
          dInsert out (pathOf base ident) (.str (c ++ ":" ++ n))
        else if icoll then
          dInsert out (pathOf base ident) (.str "<error:not iterable>")
        else dInsert out (pathOf base ident)
          (serialise (propRaw (.ptrID c n)))
      | .ptrStruct s =>
        if PRIMITIVE_TYPES.contains ptype then
          dInsert out (pathOf base ident) (serialise (propRaw (.ptrStruct s)))
        else if ptype == "POINTER" then
          dUpdate out (walkRna s (pathOf base ident))
        else if icoll then
          dInsert out (pathOf base ident) (.str "<error:not iterable>")
        else dInsert out (pathOf base ident)
          (serialise (propRaw (.ptrStruct s)))
      | .coll items err =>
        if PRIMITIVE_TYPES.contains ptype then
          dInsert out (pathOf base ident)
            (serialise (propRaw (.coll items err)))
        else if ptype == "POINTER" then dUpdate out []
        else if icoll then
          match err with
          | some msg =>
              dInsert (walkItems items 0 (pathOf base ident) out)
                (pathOf base ident) (.str ("<error:" ++ msg ++ ">"))
          | Option.none => walkItems items 0 (pathOf base ident) out
        else dInsert out (pathOf base ident)
          (serialise (propRaw (.coll items err)))

/-- The `for idx, item in enumerate(raw)` loop over a collection. -/
def walkItems : List CollItem → Nat → String → List (String × PyVal) →
    List (String × PyVal)
  | [], _, _, out => out
  | item :: rest, idx, path, out =>
      walkItems rest (idx + 1) path (walkItemStep item idx path out)

/-- One iteration of the collection loop: ID elements become reference
strings at their bracketed subpath, embedded structs are recursed into. -/
def walkItemStep : CollItem → Nat → String → List (String × PyVal) →
    List (String × PyVal)
  | .idRef c n nm, idx, path, out =>
      dInsert out (subpathOf path nm idx) (.str (c ++ ":" ++ n))
  | .sub nm s, idx, path, out =>
      dUpdate out (walkRna s (subpathOf path nm idx))
end

/-- A top-level datablock (`bpy.types.ID`): class name, full name, custom
properties (`idb.keys()` / `idb[p]`), whether it is a `bpy.types.Object`
(and if so the `name_full` of its linked data and its `idb.type` subtype),
its linked-library flag, and its RNA property surface.  `has_name_full`
models the `hasattr(idb, "name_full")` filter of `_snapshot_current`. -/
structure IDB where
  cls : String
  name_full : String
  has_name_full : Bool
  custom : List (String × PyVal)
  isObject : Bool
  data : Option String
  objType : String
  library : Bool
  rna : RnaObj

/-- The per-datablock record built by `_hash_datablock` (plus the
`bpy_path` slot that `_snapshot_current` fills in afterwards). -/
structure Block where
  type : String
  props : List (String × PyVal)
  hash : String
  bpy_path : Option String
deriving Repr

/-- Stand-in block for total dict indexing; every indexed key is present at
every call site, so this value is never observed. -/
def blockDefault : Block := ⟨"", [], "", Option.none⟩

/-- Lexicographic code-point order on character lists (Python's string
order). -/
def lexLe : List Char → List Char → Bool
  | [], _ => true
  | _ :: _, [] => false
  | a :: as, b :: bs => if a = b then lexLe as bs else decide (a.val < b.val)

/-- Python's `<=` on strings: lexicographic by code point. -/
def strLeB (s t : String) : Bool :=
  lexLe s.data t.data

/-- Python `sorted` on a list of strings. -/
def sortKeys (l : List String) : List String :=
  List.insertionSort (fun a b => strLeB a b = true) l

/-- The byte stream `_hash_datablock` feeds into `blake2s`: for each key in
sorted order, `h.update(k.encode()); h.update(str(props[k]).encode())`.
The hash itself is modelled as this stream (an injective encoding of the
hash input). -/
def hashStream (props : List (String × PyVal)) : String :=
  strConcat ((sortKeys (keysOf props)).map fun k =>
    k ++ pyStr ((dGet? props k).getD PyVal.none))

/-- Embedding of `BlendDiff._hash_datablock`. -/
def hash_datablock (idb : IDB) : Block :=
  let props := dSetdefault (walkRna idb.rna "") "name" (PyVal.str idb.name_full)
  ⟨idb.cls, props, hashStream props, Option.none⟩

/-- Embedding of `BlendDiff._identity_key`.  Note the Python guard is
`if id_prop and id_prop in idb.keys()`: an empty-string `id_prop` is falsy
and never selects the tag strategy. -/
def identity_key (idb : IDB) (block : Block) (id_prop : Option String) :
    String :=
  let tag : Option PyVal := match id_prop with
    | some p => if p == "" then Option.none else dGet? idb.custom p
    | Option.none => Option.none
  match tag with
  | some v => idb.cls ++ ":prop:" ++ pyStr v
  | Option.none =>
    if idb.isObject then
      "Object:stable:" ++
        (match idb.data with | some d => d | Option.none => "NONE") ++
        ":" ++ idb.objType
    else idb.cls ++ ":hash:" ++ block.hash

/-- A snapshot: identity key to block, in insertion order. -/
def Snap := List (String × Block)

/-- A document as `_snapshot_current` sees it: the iterable collections of
`bpy.data`, each with its attribute name and its datablocks.  The `dir()`
enumeration and the `hasattr(collection, "__iter__")` check are modelled by
taking this list as given. -/
def Doc := List (String × List IDB)

/-- Python `n.startswith("__")` for the dunder filter of
`_snapshot_current`. -/
def startsDunder (s : String) : Bool :=
  match s.data with
  | '_' :: '_' :: _ => true
  | _ => false

/-- Embedding of `BlendDiff._snapshot_current`. -/
def snapshot_current (doc : Doc) (id_prop : Option String)
    (ignore_linked : Bool) : Snap :=
  doc.foldl (fun snap cp =>
    if startsDunder cp.1 || SKIP_IDB_COLLS.contains cp.1 then snap
    else cp.2.foldl (fun snap idb =>
      if !idb.has_name_full then snap
      else if ignore_linked && idb.library then snap
      else
        let block0 := hash_datablock idb
        let block : Block :=
          { block0 with
            bpy_path := match block0.bpy_path with
              | some x => some x
              | Option.none => some cp.1 }
        let key0 := identity_key idb block id_prop
        let key :=
          if dContains snap key0 then key0 ++ ":" ++ idb.name_full else key0
        dInsert snap key block) snap) []

/-- The byte stream `_digest_from_snapshot` feeds into `blake2s`: for each
identity key in sorted order, the key followed by the per-block hash.  As
with `hashStream`, the digest is modelled as the stream itself. -/
def digest_from_snapshot (snap : Snap) : String :=
  strConcat ((sortKeys (keysOf snap)).map fun k =>
    k ++ ((dGet? snap k).getD blockDefault).hash)

/-- One `{"A": old, "B": new}` cell of a field-level diff. -/
structure DiffCell where
  A : PyVal
  B : PyVal
deriving Repr

/-- Embedding of `BlendDiff._safe_cmp` (`a != b` inside `try`): comparison
of modelled values never raises, so the string-comparison fallback of the
`except` arm never fires. -/
def safe_cmp (a b : PyVal) : Bool :=
  !(pyBeq a b)

/-- The key set `pa.keys() | pb.keys()`; the Python set's iteration order
is unspecified, fixed here as left-to-right first occurrence. -/
def unionKeys (pa pb : List (String × PyVal)) : List String :=
  keysOf pa ++ (keysOf pb).filter (fun k => !(keysOf pa).contains k)

/-- Python `d.get(k)` on a props dict: `None` when the key is absent. -/
def pgetD (p : List (String × PyVal)) (k : String) : PyVal :=
  (dGet? p k).getD PyVal.none

/-- Embedding of `BlendDiff._diff_props`. -/
def diff_props (pa pb : List (String × PyVal)) : List (String × DiffCell) :=
  (unionKeys pa pb).filterMap fun k =>
    if safe_cmp (pgetD pa k) (pgetD pb k) then
      some (k, ⟨pgetD pa k, pgetD pb k⟩)
    else Option.none

/-- Insert a name into the inner name-to-empty-marker dict of a grouping
(`groups.setdefault(dtype, {})[name] = {}`); names are compared with
Python `==`. -/
def insGroup (g : List (String × List PyVal)) (d : String) (n : PyVal) :
    List (String × List PyVal) :=
  match dGet? g d with
  | some inner =>
      dInsert g d (if inner.any (fun m => m == n) then inner else inner ++ [n])
  | Option.none => g ++ [(d, [n])]

/-- Embedding of `BlendDiff._group_by_type` at its only instantiation in
`_diff_snapshots` (`with_payload=False`, so every entry is the empty
marker and the inner dict is just its name set). -/
def group_by_type (item_keys : List String) (src : Snap) :
    List (String × List PyVal) :=
  item_keys.foldl (fun groups key =>
    let block := (dGet? src key).getD blockDefault
    let dtype := block.bpy_path.getD "Other"
    let nm := (dGet? block.props "name").getD PyVal.none
    insGroup groups dtype nm) []

/-- Insert one entity's field diff under its category and name
(`changed.setdefault(dtype, {})[name] = delta`). -/
def insChanged
    (g : List (String × List (PyVal × List (String × DiffCell))))
    (d : String) (n : PyVal) (delta : List (String × DiffCell)) :
    List (String × List (PyVal × List (String × DiffCell))) :=
  match dGet? g d with
  | some inner => dInsert g d (dInsert inner n delta)
  | Option.none => g ++ [(d, [(n, delta)])]

/-- The diff result: `added` and `removed` as category-to-name groupings,
`changed` as category-to-name-to-field-diff. -/
structure DiffOut where
  added : List (String × List PyVal)
  removed : List (String × List PyVal)
  changed : List (String × List (PyVal × List (String × DiffCell)))
deriving Repr

/-- The key set `snap_b.keys() - snap_a.keys()` of `_diff_snapshots`; the
Python set difference's iteration order is unspecified, fixed here as a
subsequence of the operand's insertion order. -/
def addedKeysOf (snap_a snap_b : Snap) : List String :=
  (keysOf snap_b).filter fun k => !(keysOf snap_a).contains k

/-- The key set `snap_a.keys() & snap_b.keys()` of `_diff_snapshots`. -/
def commonKeys (snap_a snap_b : Snap) : List String :=
  (keysOf snap_a).filter fun k => (keysOf snap_b).contains k

/-- The body of the `for key in snap_a.keys() & snap_b.keys()` loop of
`_diff_snapshots`: skip when the content hashes agree, else compute the
field diff and record it only when non-empty.  Indexing
`snap[key]["bpy_path"]` and `["props"]["name"]` is total here via defaults
that are never observed (all snapshot-built blocks carry both). -/
def changedBody (snap_a snap_b : Snap)
    (changed : List (String × List (PyVal × List (String × DiffCell))))
    (key : String) :
    List (String × List (PyVal × List (String × DiffCell))) :=
  let ba := (dGet? snap_a key).getD blockDefault
  let bb := (dGet? snap_b key).getD blockDefault
  if ba.hash == bb.hash then changed
  else
    let delta := diff_props ba.props bb.props
    if delta.isEmpty then changed
    else
      insChanged changed (bb.bpy_path.getD "Other")
        ((dGet? bb.props "name").getD PyVal.none) delta

/-- The `changed` grouping computed by `_diff_snapshots`. -/
def changedOf (snap_a snap_b : Snap) :
    List (String × List (PyVal × List (String × DiffCell))) :=
  (commonKeys snap_a snap_b).foldl (changedBody snap_a snap_b) []

/-- Embedding of `BlendDiff._diff_snapshots`. -/
def diff_snapshots (snap_a snap_b : Snap) : DiffOut :=
  { added := group_by_type (addedKeysOf snap_a snap_b) snap_b
    removed := group_by_type (addedKeysOf snap_b snap_a) snap_a
    changed := changedOf snap_a snap_b }

/-- Python `del d[k]` (equivalently: the snapshot without that entity). -/
def eraseKey (s : Snap) (k : String) : Snap :=
  s.filter fun p => !(p.1 == k)

/-- Keys of a dict are pairwise distinct (every Python dict satisfies it;
stated explicitly because association lists do not enforce it). -/
def nodupKeys {α β : Type} (l : List (α × β)) : Prop :=
  (keysOf l).Nodup

instance {α β : Type} [DecidableEq α] (l : List (α × β)) :
    Decidable (nodupKeys l) :=
  inferInstanceAs (Decidable (keysOf l).Nodup)

/-- Exceptions relevant to the engine: `MemoryError` versus anything else. -/
inductive PyErr where
  | memoryErr
  | otherErr (msg : String)

/-- A public-API return value: a diff dict, a digest string, or the
structured error payload `{"error": ..., "stage": ...}`. -/
inductive ApiOut where
  | diffOut (d : DiffOut)
  | hashOut (digest : String)
  | errPayload (error stage : String)

/-- Embedding of `BlendDiff._snapshot_file`: load the path as the active
document, then snapshot it.  The environment's outcome for the path is the
argument: `.error .memoryErr` models a `MemoryError` raised anywhere while
loading or snapshotting; `_snapshot_file` itself catches nothing. -/
def snapshot_file (loaded : Except PyErr Doc) (id_prop : Option String) :
    Except PyErr Snap :=
  match loaded with
  | .error e => .error e
  | .ok doc => .ok (snapshot_current doc id_prop true)

/-- Embedding of `BlendDiff.diff_blend_files`: snapshot both files inside
`try`, catching only `MemoryError`. -/
def diff_blend_files (la lb : Except PyErr Doc) (id_prop : Option String) :
    Except PyErr ApiOut :=
  match snapshot_file la id_prop with
  | .error .memoryErr => .ok (.errPayload "MemoryError" "snapshot")
  | .error e => .error e
  | .ok sa =>
    match snapshot_file lb id_prop with
    | .error .memoryErr => .ok (.errPayload "MemoryError" "snapshot")
    | .error e => .error e
    | .ok sb => .ok (.diffOut (diff_snapshots sa sb))

/-- Embedding of `BlendDiff.diff_current_vs_other`: snapshot the live
document, snapshot the other file, restore, diff (optionally reversed) —
all inside `try` catching only `MemoryError`.  The best-effort reload of
the original file is a side effect outside the returned value. -/
def diff_current_vs_other (cur other : Except PyErr Doc) (rev : Bool)
    (id_prop : Option String) : Except PyErr ApiOut :=
  match cur with
  | .error .memoryErr => .ok (.errPayload "MemoryError" "snapshot")
  | .error e => .error e
  | .ok dc =>
    match snapshot_file other id_prop with
    | .error .memoryErr => .ok (.errPayload "MemoryError" "snapshot")
    | .error e => .error e
    | .ok so =>
      let sc := snapshot_current dc id_prop true
      .ok (.diffOut (if rev then diff_snapshots so sc else diff_snapshots sc so))

/-- Embedding of `BlendDiff.hash_blend_file`: snapshot the file and digest
it.  There is no `try` in the source: exceptions propagate. -/
def hash_blend_file (loaded : Except PyErr Doc) (id_prop : Option String) :
    Except PyErr ApiOut :=
  match snapshot_file loaded id_prop with
  | .error e => .error e
  | .ok s => .ok (.hashOut (digest_from_snapshot s))

/-- Embedding of `BlendDiff.hash_current_file`: snapshot the live document
and digest it.  There is no `try` in the source: exceptions propagate. -/
def hash_current_file (cur : Except PyErr Doc) (id_prop : Option String) :
    Except PyErr ApiOut :=
  match cur with
  | .error e => .error e
  | .ok doc => .ok (.hashOut (digest_from_snapshot (snapshot_current doc id_prop true)))

/-! Helper lemmas. -/

theorem jsonEncodableList_map_numPy (xs : List BVal) (h : xs.all isNum = true) :
    jsonEncodableList (xs.map numPy) = true := by
  induction xs with
  | nil => rfl
  | cons x t ih =>
    rw [List.all_cons, Bool.and_eq_true] at h
    cases x <;> simp_all [numPy, isNum, jsonEncodable, jsonEncodableList]

theorem jsonEncodableList_map_float (xs : List String) :
    jsonEncodableList (xs.map PyVal.float) = true := by
  induction xs with
  | nil => rfl
  | cons x t ih => simp_all [jsonEncodable, jsonEncodableList]

theorem mem_keys_diff_props {pa pb : List (String × PyVal)} {k : String}
    (hk : k ∈ keysOf (diff_props pa pb)) :
    safe_cmp (pgetD pa k) (pgetD pb k) = true := by
  unfold diff_props at hk
  generalize unionKeys pa pb = l at hk
  induction l with
  | nil => simp [keysOf] at hk
  | cons a t ih =>
    rw [List.filterMap_cons] at hk
    by_cases hc : safe_cmp (pgetD pa a) (pgetD pb a) = true
    · rw [if_pos hc] at hk
      rcases List.mem_cons.mp hk with h | h
      · cases h; exact hc
      · exact ih h
    · rw [if_neg hc] at hk
      exact ih hk

/-! Theorems for the claims. -/

/-- C8: for every input value, `_serialise` returns a JSON-encodable
primitive (bool, int, float, str, or a nested list of such) and, being a
total function of its argument, never raises; the `mathutils`
vector/color/rotation types become lists of floats and matrices become
nested lists of floats; unrecognized types degrade to their string
representation. -/
theorem serialise_spec :
    (∀ v, jsonEncodable (serialise v) = true) ∧
    (∀ xs, serialise (BVal.vector xs) = PyVal.list (xs.map PyVal.float)) ∧
    (∀ xs, serialise (BVal.color xs) = PyVal.list (xs.map PyVal.float)) ∧
    (∀ xs, serialise (BVal.euler xs) = PyVal.list (xs.map PyVal.float)) ∧
    (∀ xs, serialise (BVal.quat xs) = PyVal.list (xs.map PyVal.float)) ∧
    (∀ rows, serialise (BVal.matrix rows) =
      PyVal.list (rows.map fun r => PyVal.list (r.map PyVal.float))) ∧
    (∀ rep, serialise (BVal.other rep) = PyVal.str rep) := by
  refine ⟨?_, fun _ => rfl, fun _ => rfl, fun _ => rfl, fun _ => rfl,
    fun _ => rfl, fun _ => rfl⟩
  intro v
  cases v with
  | pylist xs =>
    by_cases h : xs.all isNum = true
    · simp [serialise, h, jsonEncodable, jsonEncodableList_map_numPy xs h]
    · simp [serialise, h, jsonEncodable]
  | vector xs => simp [serialise, jsonEncodable, jsonEncodableList_map_float]
  | color xs => simp [serialise, jsonEncodable, jsonEncodableList_map_float]
  | euler xs => simp [serialise, jsonEncodable, jsonEncodableList_map_float]
  | quat xs => simp [serialise, jsonEncodable, jsonEncodableList_map_float]
  | matrix rows =>
    simp only [serialise, jsonEncodable]
    induction rows with
    | nil => rfl
    | cons r t ih =>
      simp_all [jsonEncodable, jsonEncodableList, jsonEncodableList_map_float]
  | _ => rfl

/-- C9: for all snapshots A and B, `diff(A,B).added` equals
`diff(B,A).removed` and `diff(A,B).removed` equals `diff(B,A).added`:
both sides are the same grouping of the same key set over the same source
snapshot. -/
theorem diff_added_removed_antisymm (a b : Snap) :
    (diff_snapshots a b).added = (diff_snapshots b a).removed ∧
    (diff_snapshots a b).removed = (diff_snapshots b a).added :=
  ⟨rfl, rfl⟩

/-- C10 (implicit): in `_diff_props`, a path stored in one props map with
value `None` and absent from the other is never reported as a change,
because both sides are read with `dict.get` whose default is `None`. -/
theorem diff_props_stored_none_eq_missing (pa pb : List (String × PyVal))
    (k : String)
    (h : (dGet? pa k = some PyVal.none ∧ dGet? pb k = Option.none) ∨
         (dGet? pa k = Option.none ∧ dGet? pb k = some PyVal.none)) :
    ¬ k ∈ keysOf (diff_props pa pb) := by
  intro hk
  have hc := mem_keys_diff_props hk
  rcases h with ⟨h1, h2⟩ | ⟨h1, h2⟩ <;>
    simp [pgetD, h1, h2, safe_cmp, pyBeq] at hc

/-- Witness for C10: props `{"x": None}` against `{}` produce an empty
field diff at `"x"`. -/
theorem diff_props_stored_none_eq_missing_witness :
    ¬ "x" ∈ keysOf (diff_props [("x", PyVal.none)] []) :=
  diff_props_stored_none_eq_missing [("x", PyVal.none)] [] "x"
    (Or.inl ⟨rfl, rfl⟩)

theorem append3_ne_empty (a b c : String) (hb : b.data ≠ []) :
    a ++ b ++ c ≠ "" := by
  intro h
  have hd := congrArg String.data h
  rw [String.data_append, String.data_append] at hd
  have hnil : String.data "" = [] := rfl
  rw [hnil] at hd
  exact hb (List.append_eq_nil.mp (List.append_eq_nil.mp hd).1).2

/-- C7: the identity resolver tries the three strategies in strict order —
the tag-property key when the configured custom tag property is present
(and the configured name is non-empty: Python truthiness), otherwise the
stable-container key for Objects, otherwise the content-hash fallback —
is a pure function of (entity, block, tag configuration) by construction,
and always returns a non-empty string. -/
theorem identity_key_spec :
    (∀ (idb : IDB) (blk : Block) (p : String) (v : PyVal), p ≠ "" →
        dGet? idb.custom p = some v →
        identity_key idb blk (some p) = idb.cls ++ ":prop:" ++ pyStr v) ∧
    (∀ (idb : IDB) (blk : Block) (idp : Option String),
        (∀ p, idp = some p → p = "" ∨ dGet? idb.custom p = Option.none) →
        idb.isObject = true →
        identity_key idb blk idp =
          "Object:stable:" ++
            (match idb.data with | some d => d | Option.none => "NONE") ++
            ":" ++ idb.objType) ∧
    (∀ (idb : IDB) (blk : Block) (idp : Option String),
        (∀ p, idp = some p → p = "" ∨ dGet? idb.custom p = Option.none) →
        idb.isObject = false →
        identity_key idb blk idp = idb.cls ++ ":hash:" ++ blk.hash) ∧
    (∀ (idb : IDB) (blk : Block) (idp : Option String),
        identity_key idb blk idp ≠ "") := by
  have hmiss : ∀ (idb : IDB) (blk : Block) (idp : Option String),
      (∀ p, idp = some p → p = "" ∨ dGet? idb.custom p = Option.none) →
      identity_key idb blk idp =
        if idb.isObject then
          "Object:stable:" ++
            (match idb.data with | some d => d | Option.none => "NONE") ++
            ":" ++ idb.objType
        else idb.cls ++ ":hash:" ++ blk.hash := by
    intro idb blk idp h
    cases idp with
    | none => rfl
    | some p =>
      rcases h p rfl with hp | hp
      · subst hp; rfl
      · cases hb : p == "" with
        | true => simp [identity_key, hb]
        | false => simp [identity_key, hb, hp]
  refine ⟨?_, ?_, ?_, ?_⟩
  · intro idb blk p v hp hv
    have hbe : (p == "") = false := by
      cases hb : p == "" with
      | true => exact absurd (by simpa using hb) hp
      | false => rfl
    simp [identity_key, hbe, hv]
  · intro idb blk idp h hobj
    rw [hmiss idb blk idp h, if_pos hobj]
  · intro idb blk idp h hobj
    rw [hmiss idb blk idp h, hobj]
    rfl
  · intro idb blk idp
    have hne2 : ∀ (idb : IDB) (blk : Block),
        (if idb.isObject then
            "Object:stable:" ++
              (match idb.data with | some d => d | Option.none => "NONE") ++
              ":" ++ idb.objType
          else idb.cls ++ ":hash:" ++ blk.hash) ≠ "" := by
      intro idb blk
      by_cases hobj : idb.isObject
      · rw [if_pos hobj]; exact append3_ne_empty _ ":" _ (by decide)
      · rw [if_neg hobj]; exact append3_ne_empty _ ":hash:" _ (by decide)
    cases idp with
    | none => simpa [identity_key] using hne2 idb blk
    | some p =>
      cases hb : p == "" with
      | true => simpa [identity_key, hb] using hne2 idb blk
      | false =>
        cases hv : dGet? idb.custom p with
        | none => simpa [identity_key, hb, hv] using hne2 idb blk
        | some v =>
          simpa [identity_key, hb, hv] using
            append3_ne_empty idb.cls ":prop:" (pyStr v) (by decide)

/-- Witness for C7: each strategy at a concrete datablock. -/
theorem identity_key_spec_witness :
    identity_key
        ⟨"Mesh", "M", true, [("tag", PyVal.int 7)], false, Option.none, "",
          false, .mk []⟩
        ⟨"Mesh", [], "s", Option.none⟩ (some "tag") =
      "Mesh" ++ ":prop:" ++ pyStr (PyVal.int 7) ∧
    identity_key
        ⟨"Object", "Cube", true, [], true, some "Mesh.001", "MESH", false,
          .mk []⟩
        ⟨"Object", [], "s", Option.none⟩ Option.none =
      "Object:stable:" ++ "Mesh.001" ++ ":" ++ "MESH" ∧
    identity_key
        ⟨"Material", "Mat", true, [], false, Option.none, "", false, .mk []⟩
        ⟨"Material", [], "s", Option.none⟩ Option.none =
      "Material" ++ ":hash:" ++ "s" ∧
    identity_key
        ⟨"Material", "Mat", true, [], false, Option.none, "", false, .mk []⟩
        ⟨"Material", [], "s", Option.none⟩ Option.none ≠ "" := by
  refine ⟨identity_key_spec.1 _ _ "tag" (PyVal.int 7) (by decide) rfl,
    identity_key_spec.2.1 _ _ Option.none (by intro p h; cases h) rfl,
    identity_key_spec.2.2.1 _ _ Option.none (by intro p h; cases h) rfl,
    identity_key_spec.2.2.2 _ _ Option.none⟩

theorem foldl_skip {γ : Type} (k : String) (l : List String)
    (f g : γ → String → γ) (hk : ∀ acc, f acc k = acc)
    (hfg : ∀ x, x ≠ k → ∀ acc, g acc x = f acc x) :
    ∀ acc, (l.filter fun x => !(x == k)).foldl g acc = l.foldl f acc := by
  induction l with
  | nil => intro _; rfl
  | cons x t ih =>
    intro acc
    rw [List.filter_cons]
    by_cases hx : x = k
    · subst hx
      simp only [beq_self_eq_true, Bool.not_true, Bool.false_eq_true,
        if_false, List.foldl_cons, hk acc]
      exact ih acc
    · have hcond : (!(x == k)) = true := by simp [hx]
      simp only [hcond, if_true, List.foldl_cons, hfg x hx acc]
      exact ih _

theorem keysOf_eraseKey (s : Snap) (k : String) :
    keysOf (eraseKey s k) = (keysOf s).filter fun x => !(x == k) := by
  induction s with
  | nil => rfl
  | cons p t ih =>
    unfold eraseKey at *
    unfold keysOf at *
    rw [List.map_cons, List.filter_cons, List.filter_cons]
    by_cases hp : (!(p.1 == k)) = true
    · rw [if_pos hp, if_pos hp, List.map_cons, ih]
    · rw [if_neg hp, if_neg hp, ih]

theorem dGet?_eraseKey (s : Snap) (k x : String) (hx : x ≠ k) :
    dGet? (eraseKey s k) x = dGet? s x := by
  induction s with
  | nil => rfl
  | cons p t ih =>
    unfold eraseKey at *
    rw [List.filter_cons]
    by_cases hp : (!(p.1 == k)) = true
    · rw [if_pos hp]
      cases hpx : p.1 == x with
      | true => simp [dGet?, hpx]
      | false => simpa [dGet?, hpx] using ih
    · rw [if_neg hp]
      have hpk : p.1 = k := by
        have hb : (p.1 == k) = true := by
          cases hb : p.1 == k with
          | true => rfl
          | false => exact absurd (by simp [hb]) hp
        exact beq_iff_eq.mp hb
      have hpx : (p.1 == x) = false := by
        rw [hpk]
        exact beq_eq_false_iff_ne.mpr fun h => hx h.symm
      rw [ih]
      simp [dGet?, hpx]

theorem contains_filter_ne (l : List String) (k x : String) (hx : x ≠ k) :
    ((l.filter fun y => !(y == k)).contains x) = l.contains x := by
  cases hc : l.contains x with
  | true =>
    have hm : x ∈ l := List.elem_iff.mp hc
    exact List.elem_iff.mpr (List.mem_filter.mpr ⟨hm, by simp [hx]⟩)
  | false =>
    cases hc' : (l.filter fun y => !(y == k)).contains x with
    | true =>
      have hm : x ∈ l := (List.mem_filter.mp (List.elem_iff.mp hc')).1
      have hc2 : l.contains x = true := List.elem_iff.mpr hm
      rw [hc2] at hc
      exact hc
    | false => rfl

theorem commonKeys_eraseKey (a b : Snap) (k : String) :
    commonKeys (eraseKey a k) (eraseKey b k) =
      (commonKeys a b).filter fun x => !(x == k) := by
  unfold commonKeys
  rw [keysOf_eraseKey, keysOf_eraseKey]
  rw [List.filter_filter]
  rw [List.filter_filter]
  apply List.filter_congr
  intro x _
  by_cases hx : x = k
  · simp [hx]
  · rw [contains_filter_ne _ _ _ hx]
    exact Bool.and_comm _ _

theorem changedBody_eraseKey (a b : Snap) (k x : String) (hx : x ≠ k)
    (acc : List (String × List (PyVal × List (String × DiffCell)))) :
    changedBody (eraseKey a k) (eraseKey b k) acc x = changedBody a b acc x := by
  unfold changedBody
  rw [dGet?_eraseKey a k x hx, dGet?_eraseKey b k x hx]

theorem changedBody_skip (a b : Snap) (k : String)
    (hskip : ((dGet? a k).getD blockDefault).hash =
        ((dGet? b k).getD blockDefault).hash ∨
      diff_props ((dGet? a k).getD blockDefault).props
        ((dGet? b k).getD blockDefault).props = [])
    (acc : List (String × List (PyVal × List (String × DiffCell)))) :
    changedBody a b acc k = acc := by
  unfold changedBody
  rcases hskip with hh | hd
  · rw [if_pos (by simpa using hh)]
  · by_cases hh : ((dGet? a k).getD blockDefault).hash ==
        ((dGet? b k).getD blockDefault).hash
    · rw [if_pos hh]
    · rw [if_neg hh]
      simp only [hd]
      rfl

theorem changedOf_eraseKey (a b : Snap) (k : String)
    (hskip : ((dGet? a k).getD blockDefault).hash =
        ((dGet? b k).getD blockDefault).hash ∨
      diff_props ((dGet? a k).getD blockDefault).props
        ((dGet? b k).getD blockDefault).props = []) :
    changedOf (eraseKey a k) (eraseKey b k) = changedOf a b := by
  unfold changedOf
  rw [commonKeys_eraseKey]
  exact foldl_skip k (commonKeys a b) (changedBody a b)
    (changedBody (eraseKey a k) (eraseKey b k))
    (changedBody_skip a b k hskip)
    (fun x hx acc => changedBody_eraseKey a b k x hx acc) []

theorem dGet?_dInsert_values {κ α : Type} [BEq κ] (l : List (κ × α))
    (k : κ) (v : α) (k' : κ) (w : α)
    (h : dGet? (dInsert l k v) k' = some w) : w = v ∨ dGet? l k' = some w := by
  induction l with
  | nil =>
    unfold dInsert dGet? at h
    split at h
    all_goals
      first
      | exact Or.inl (Option.some.inj h).symm
      | cases h
  | cons p t ih =>
    unfold dInsert at h
    by_cases hp : (p.1 == k) = true
    · rw [if_pos hp] at h
      unfold dGet? at h
      split at h
      · exact Or.inl (Option.some.inj h).symm
      · right
        unfold dGet?
        rw [if_neg (by assumption)]
        exact h
    · rw [if_neg hp] at h
      unfold dGet? at h
      split at h
      · right
        unfold dGet?
        rw [if_pos (by assumption)]
        exact h
      · rcases ih h with h' | h'
        · exact Or.inl h'
        · right
          unfold dGet?
          rw [if_neg (by assumption)]
          exact h'

theorem dGet?_append_single {κ α : Type} [BEq κ] (l : List (κ × α))
    (d : κ) (x : α) (d' : κ) (w : α)
    (h : dGet? (l ++ [(d, x)]) d' = some w) :
    dGet? l d' = some w ∨ w = x := by
  induction l with
  | nil =>
    rw [List.nil_append] at h
    unfold dGet? at h
    split at h
    all_goals
      first
      | exact Or.inr (Option.some.inj h).symm
      | cases h
  | cons p t ih =>
    rw [List.cons_append] at h
    unfold dGet? at h
    split at h
    · left
      unfold dGet?
      rw [if_pos (by assumption)]
      exact h
    · rcases ih h with h' | h'
      · left
        unfold dGet?
        rw [if_neg (by assumption)]
        exact h'
      · exact Or.inr h'

theorem insChanged_lookup
    {g : List (String × List (PyVal × List (String × DiffCell)))}
    {d : String} {n : PyVal} {delta : List (String × DiffCell)}
    {d' : String} {inner' : List (PyVal × List (String × DiffCell))}
    {n' : PyVal} {delta' : List (String × DiffCell)}
    (h1 : dGet? (insChanged g d n delta) d' = some inner')
    (h2 : dGet? inner' n' = some delta') :
    delta' = delta ∨
      ∃ d0 inner, dGet? g d0 = some inner ∧ dGet? inner n' = some delta' := by
  unfold insChanged at h1
  cases hd : dGet? g d with
  | some inner0 =>
    rw [hd] at h1
    rcases dGet?_dInsert_values _ _ _ _ _ h1 with h | h
    · subst h
      rcases dGet?_dInsert_values _ _ _ _ _ h2 with h | h
      · exact Or.inl h
      · exact Or.inr ⟨d, inner0, hd, h⟩
    · exact Or.inr ⟨d', inner', h, h2⟩
  | none =>
    rw [hd] at h1
    rcases dGet?_append_single _ _ _ _ _ h1 with h | h
    · exact Or.inr ⟨d', inner', h, h2⟩
    · subst h
      unfold dGet? at h2
      split at h2
      all_goals
        first
        | exact Or.inl (Option.some.inj h2).symm
        | cases h2

theorem changedBody_preserve (a b : Snap) (x : String)
    (acc : List (String × List (PyVal × List (String × DiffCell))))
    (hacc : ∀ d inner n delta, dGet? acc d = some inner →
      dGet? inner n = some delta → delta ≠ []) :
    ∀ d inner n delta, dGet? (changedBody a b acc x) d = some inner →
      dGet? inner n = some delta → delta ≠ [] := by
  unfold changedBody
  by_cases hh : ((dGet? a x).getD blockDefault).hash ==
      ((dGet? b x).getD blockDefault).hash
  · rw [if_pos hh]; exact hacc
  · rw [if_neg hh]
    by_cases he : (diff_props ((dGet? a x).getD blockDefault).props
        ((dGet? b x).getD blockDefault).props).isEmpty
    · simp only [he, if_true]
      exact hacc
    · simp only [he, Bool.false_eq_true, if_false]
      intro d inner n delta h1 h2
      rcases insChanged_lookup h1 h2 with h | ⟨d0, inner0, hg1, hg2⟩
      · subst h
        intro hnil
        rw [hnil] at he
        exact he rfl
      · exact hacc d0 inner0 n delta hg1 hg2

theorem changedOf_delta_nonempty (a b : Snap) :
    ∀ d inner n delta, dGet? (changedOf a b) d = some inner →
      dGet? inner n = some delta → delta ≠ [] := by
  unfold changedOf
  generalize commonKeys a b = l
  have haux : ∀ (l' : List String)
      (acc : List (String × List (PyVal × List (String × DiffCell)))),
      (∀ d inner n delta, dGet? acc d = some inner →
        dGet? inner n = some delta → delta ≠ []) →
      ∀ d inner n delta,
        dGet? (l'.foldl (changedBody a b) acc) d = some inner →
        dGet? inner n = some delta → delta ≠ [] := by
    intro l'
    induction l' with
    | nil => intro acc hacc; exact hacc
    | cons x t ih =>
      intro acc hacc
      rw [List.foldl_cons]
      exact ih _ (changedBody_preserve a b x acc hacc)
  exact haux l [] (by intro d inner n delta h1 _; exact absurd h1 (by simp [dGet?]))

/-- C3: for every pair of snapshots and every identity key present in
both, if the two blocks stored under that key have equal content hashes,
the key is skipped by `_diff_snapshots`: deleting that entity from both
snapshots leaves the `changed` grouping identical, so the entity never
appears under `changed`. -/
theorem hash_equal_not_changed (a b : Snap) (k : String)
    (_ha : k ∈ keysOf a) (_hb : k ∈ keysOf b)
    (hh : ((dGet? a k).getD blockDefault).hash =
      ((dGet? b k).getD blockDefault).hash) :
    (diff_snapshots a b).changed =
      (diff_snapshots (eraseKey a k) (eraseKey b k)).changed :=
  (changedOf_eraseKey a b k (Or.inl hh)).symm

/-- Witness for C3: two one-entity snapshots under the same key with equal
hashes but different props produce the same (empty) `changed` grouping as
the emptied snapshots. -/
theorem hash_equal_not_changed_witness :
    (diff_snapshots [("k", ⟨"T", [("name", PyVal.str "A"), ("x", PyVal.int 1)], "h", some "objects"⟩)]
        [("k", ⟨"T", [("name", PyVal.str "A"), ("x", PyVal.int 2)], "h", some "objects"⟩)]).changed =
      (diff_snapshots
        (eraseKey [("k", ⟨"T", [("name", PyVal.str "A"), ("x", PyVal.int 1)], "h", some "objects"⟩)] "k")
        (eraseKey [("k", ⟨"T", [("name", PyVal.str "A"), ("x", PyVal.int 2)], "h", some "objects"⟩)] "k")).changed :=
  hash_equal_not_changed _ _ "k" (by simp [keysOf]) (by simp [keysOf]) rfl

/-- C1: for every pair of snapshots and every identity key present in
both, if the two blocks' content hashes differ but their field-level props
diff is empty, the entity is not reported under `changed` (deleting it
from both snapshots leaves `changed` identical); and membership in
`changed` always carries a non-empty field diff — the hash is only a
pre-filter, the field diff is authoritative. -/
theorem empty_field_diff_not_changed (a b : Snap) (k : String)
    (ba bb : Block) (hga : dGet? a k = some ba) (hgb : dGet? b k = some bb)
    (_hne : ba.hash ≠ bb.hash)
    (hempty : diff_props ba.props bb.props = []) :
    (diff_snapshots a b).changed =
      (diff_snapshots (eraseKey a k) (eraseKey b k)).changed ∧
    (∀ d inner n delta, dGet? (diff_snapshots a b).changed d = some inner →
      dGet? inner n = some delta → delta ≠ []) := by
  constructor
  · refine (changedOf_eraseKey a b k (Or.inr ?_)).symm
    rw [hga, hgb]
    exact hempty
  · exact changedOf_delta_nonempty a b

/-- Witness for C1: blocks under the same key whose hashes differ (here
because hashing is over `str()` images: `True` versus `1`) while the field
diff is empty (`True == 1` in Python), with a second genuinely changed
entity showing the non-empty-delta side. -/
theorem empty_field_diff_not_changed_witness :
    (diff_snapshots [("k", ⟨"T", [("name", PyVal.str "A"), ("x", PyVal.bool true)], "nameAxTrue", some "objects"⟩)]
        [("k", ⟨"T", [("name", PyVal.str "A"), ("x", PyVal.int 1)], "nameAx1", some "objects"⟩)]).changed =
      (diff_snapshots
        (eraseKey [("k", ⟨"T", [("name", PyVal.str "A"), ("x", PyVal.bool true)], "nameAxTrue", some "objects"⟩)] "k")
        (eraseKey [("k", ⟨"T", [("name", PyVal.str "A"), ("x", PyVal.int 1)], "nameAx1", some "objects"⟩)] "k")).changed ∧
    (∀ d inner n delta,
      dGet? (diff_snapshots [("k", ⟨"T", [("name", PyVal.str "A"), ("x", PyVal.bool true)], "nameAxTrue", some "objects"⟩)]
        [("k", ⟨"T", [("name", PyVal.str "A"), ("x", PyVal.int 1)], "nameAx1", some "objects"⟩)]).changed d = some inner →
      dGet? inner n = some delta → delta ≠ []) :=
  empty_field_diff_not_changed _ _ "k" _ _ rfl rfl (by decide) rfl

theorem lexLe_total : ∀ as bs : List Char, lexLe as bs = true ∨ lexLe bs as = true
  | [], _ => Or.inl rfl
  | _ :: _, [] => Or.inr rfl
  | a :: as, b :: bs => by
    by_cases hab : a = b
    · subst hab
      rcases lexLe_total as bs with h | h
      · exact Or.inl (by simpa [lexLe] using h)
      · exact Or.inr (by simpa [lexLe] using h)
    · have hv : a.val ≠ b.val := fun h => hab (Char.ext h)
      rcases Nat.lt_trichotomy a.val.toNat b.val.toNat with h | h | h
      · left
        rw [lexLe, if_neg hab]
        exact decide_eq_true h
      · exact absurd (UInt32.ext h) hv
      · right
        rw [lexLe, if_neg fun hh => hab hh.symm]
        exact decide_eq_true h

theorem lexLe_trans : ∀ as bs cs : List Char, lexLe as bs = true →
    lexLe bs cs = true → lexLe as cs = true
  | [], _, _, _, _ => rfl
  | _ :: _, [], _, h1, _ => by cases h1
  | _ :: _, _ :: _, [], _, h2 => by cases h2
  | a :: as, b :: bs, c :: cs, h1, h2 => by
    by_cases hab : a = b <;> by_cases hbc : b = c
    · subst hab; subst hbc
      simp only [lexLe, if_pos rfl] at *
      exact lexLe_trans as bs cs h1 h2
    · subst hab
      simpa [lexLe, hbc] using h2
    · subst hbc
      simpa [lexLe, hab] using h1
    · rw [lexLe, if_neg hab] at h1
      rw [lexLe, if_neg hbc] at h2
      have hac : a.val.toNat < c.val.toNat :=
        Nat.lt_trans (of_decide_eq_true h1) (of_decide_eq_true h2)
      have hne : a ≠ c := fun h => by
        subst h
        exact Nat.lt_irrefl _ hac
      rw [lexLe, if_neg hne]
      exact decide_eq_true hac

theorem lexLe_antisymm : ∀ as bs : List Char, lexLe as bs = true →
    lexLe bs as = true → as = bs
  | [], [], _, _ => rfl
  | [], _ :: _, _, h2 => by cases h2
  | _ :: _, [], h1, _ => by cases h1
  | a :: as, b :: bs, h1, h2 => by
    by_cases hab : a = b
    · subst hab
      rw [lexLe, if_pos rfl] at h1 h2
      rw [lexLe_antisymm as bs h1 h2]
    · rw [lexLe, if_neg hab] at h1
      rw [lexLe, if_neg (fun h => hab h.symm)] at h2
      exact absurd (Nat.lt_trans (of_decide_eq_true h1) (of_decide_eq_true h2))
        (Nat.lt_irrefl _)

instance : IsTotal String fun a b => strLeB a b = true :=
  ⟨fun s t => lexLe_total s.data t.data⟩

instance : IsTrans String fun a b => strLeB a b = true :=
  ⟨fun s t u => lexLe_trans s.data t.data u.data⟩

instance : IsAntisymm String fun a b => strLeB a b = true :=
  ⟨fun s t h1 h2 => String.ext (lexLe_antisymm s.data t.data h1 h2)⟩

theorem dGet?_isSome_iff_mem {β : Type} (l : List (String × β)) (k : String) :
    (dGet? l k).isSome = true ↔ k ∈ keysOf l := by
  induction l with
  | nil => simp [dGet?, keysOf]
  | cons p t ih =>
    unfold dGet?
    by_cases hp : (p.1 == k) = true
    · rw [if_pos hp]
      simp only [Option.isSome_some, true_iff]
      exact List.mem_cons.mpr (Or.inl (beq_iff_eq.mp hp).symm)
    · rw [if_neg hp]
      rw [ih]
      unfold keysOf
      rw [List.map_cons]
      constructor
      · exact fun h => List.mem_cons.mpr (Or.inr h)
      · intro h
        rcases List.mem_cons.mp h with h | h
        · exact absurd (beq_iff_eq.mpr h.symm) hp
        · exact h

/-- C4: the snapshot digest is insertion-order independent: any two
snapshots holding the same identity-key-to-block entries (as maps) yield
the same digest, which is obtained by folding the `(key, block.hash)`
pairs in sorted key order into the hash stream. -/
theorem digest_deterministic (a b : Snap)
    (hna : nodupKeys a) (hnb : nodupKeys b)
    (h : ∀ k, dGet? a k = dGet? b k) :
    digest_from_snapshot a = digest_from_snapshot b := by
  have hmem : ∀ k, k ∈ keysOf a ↔ k ∈ keysOf b := by
    intro k
    rw [← dGet?_isSome_iff_mem, ← dGet?_isSome_iff_mem, h k]
  have hperm : (keysOf a).Perm (keysOf b) :=
    (List.perm_ext_iff_of_nodup hna hnb).mpr hmem
  have hkeys : sortKeys (keysOf a) = sortKeys (keysOf b) := by
    unfold sortKeys
    exact List.eq_of_perm_of_sorted
      (((List.perm_insertionSort _ _).trans hperm).trans
        (List.perm_insertionSort _ _).symm)
      (List.sorted_insertionSort _ _) (List.sorted_insertionSort _ _)
  unfold digest_from_snapshot
  rw [hkeys]
  exact congrArg strConcat (List.map_congr_left fun k _ => by rw [h k])

/-- Witness for C4: the same two entities inserted in opposite orders
digest identically. -/
theorem digest_deterministic_witness :
    digest_from_snapshot
        [("k1", ⟨"T", [("name", PyVal.str "A")], "h1", some "objects"⟩),
         ("k2", ⟨"T", [("name", PyVal.str "B")], "h2", some "objects"⟩)] =
      digest_from_snapshot
        [("k2", ⟨"T", [("name", PyVal.str "B")], "h2", some "objects"⟩),
         ("k1", ⟨"T", [("name", PyVal.str "A")], "h1", some "objects"⟩)] := by
  apply digest_deterministic _ _ (by decide) (by decide)
  intro k
  by_cases h1 : ("k1" == k) = true
  · by_cases h2 : ("k2" == k) = true
    · exact absurd (beq_iff_eq.mp h1 |>.trans (beq_iff_eq.mp h2).symm)
        (by decide)
    · simp [dGet?, h1, h2]
  · by_cases h2 : ("k2" == k) = true
    · simp [dGet?, h1, h2]
    · simp [dGet?, h1, h2]

/-- C6 counterexample: `hash_blend_file` has no `try` around snapshot
construction, so a `MemoryError` raised while loading/snapshotting the
file propagates to the caller instead of being returned as the structured
`{"error": "MemoryError", "stage": "snapshot"}` payload. -/
theorem hash_blend_file_memory_error_propagates :
    hash_blend_file (Except.error PyErr.memoryErr) Option.none =
      Except.error PyErr.memoryErr ∧
    hash_blend_file (Except.error PyErr.memoryErr) Option.none ≠
      Except.ok (ApiOut.errPayload "MemoryError" "snapshot") :=
  ⟨rfl, fun h => Except.noConfusion h⟩

/-- C6 (amended): the two diff operations (`diff_blend_files`,
`diff_current_vs_other`) catch `MemoryError` raised during snapshot
construction of either side and return the structured payload
`{"error": "MemoryError", "stage": "snapshot"}`, while non-memory
exceptions propagate; the two hash operations (`hash_blend_file`,
`hash_current_file`) have no such handler and propagate `MemoryError`. -/
theorem memory_error_boundary :
    (∀ lb idp, diff_blend_files (Except.error PyErr.memoryErr) lb idp =
      Except.ok (ApiOut.errPayload "MemoryError" "snapshot")) ∧
    (∀ da idp, diff_blend_files (Except.ok da) (Except.error PyErr.memoryErr) idp =
      Except.ok (ApiOut.errPayload "MemoryError" "snapshot")) ∧
    (∀ other rev idp,
      diff_current_vs_other (Except.error PyErr.memoryErr) other rev idp =
        Except.ok (ApiOut.errPayload "MemoryError" "snapshot")) ∧
    (∀ dc rev idp,
      diff_current_vs_other (Except.ok dc) (Except.error PyErr.memoryErr) rev idp =
        Except.ok (ApiOut.errPayload "MemoryError" "snapshot")) ∧
    (∀ msg lb idp, diff_blend_files (Except.error (PyErr.otherErr msg)) lb idp =
      Except.error (PyErr.otherErr msg)) ∧
    (∀ idp, hash_blend_file (Except.error PyErr.memoryErr) idp =
      Except.error PyErr.memoryErr) ∧
    (∀ idp, hash_current_file (Except.error PyErr.memoryErr) idp =
      Except.error PyErr.memoryErr) :=
  ⟨fun _ _ => rfl, fun _ _ => rfl, fun _ _ _ => rfl, fun _ _ _ => rfl,
    fun _ _ _ => rfl, fun _ => rfl, fun _ => rfl⟩

theorem mem_keys_dInsert {α β : Type} [BEq α] {l : List (α × β)} {k0 : α}
    {v : β} {k : α} (h : k ∈ keysOf (dInsert l k0 v)) :
    k = k0 ∨ k ∈ keysOf l := by
  induction l with
  | nil =>
    unfold dInsert keysOf at h
    rcases List.mem_cons.mp h with h | h
    · exact Or.inl h
    · cases h
  | cons p t ih =>
    unfold dInsert at h
    by_cases hp : (p.1 == k0) = true
    · rw [if_pos hp] at h
      unfold keysOf at h
      rcases List.mem_cons.mp h with h | h
      · exact Or.inr (List.mem_cons.mpr (Or.inl h))
      · exact Or.inr (List.mem_cons.mpr (Or.inr h))
    · rw [if_neg hp] at h
      unfold keysOf at h
      rcases List.mem_cons.mp h with h | h
      · exact Or.inr (List.mem_cons.mpr (Or.inl h))
      · rcases ih h with h | h
        · exact Or.inl h
        · exact Or.inr (List.mem_cons.mpr (Or.inr h))

theorem mem_keys_dUpdate {α β : Type} [BEq α] {m l : List (α × β)} {k : α}
    (h : k ∈ keysOf (dUpdate l m)) : k ∈ keysOf l ∨ k ∈ keysOf m := by
  induction m generalizing l with
  | nil => exact Or.inl h
  | cons p t ih =>
    unfold dUpdate at h
    rw [List.foldl_cons] at h
    rcases ih h with h | h
    · rcases mem_keys_dInsert h with h | h
      · exact Or.inr (List.mem_cons.mpr (Or.inl h))
      · exact Or.inl h
    · exact Or.inr (List.mem_cons.mpr (Or.inr h))

theorem endsWith_concat_bracket_false (x s : String) (hs : s.data ≠ [])
    (hlast : s.data.getLast? ≠ some ']') :
    strEndsWith (x ++ "]") s = false := by
  unfold strEndsWith
  have hkd : (x ++ "]").data = x.data ++ [']'] := by
    simp [String.data_append]
  rw [hkd]
  cases hbe : s.data == (x.data ++ [']']).drop
      ((x.data ++ [']']).length - s.data.length) with
  | false => rfl
  | true =>
    exfalso
    have heq : s.data = (x.data ++ [']']).drop
        ((x.data ++ [']']).length - s.data.length) := by
      exact beq_iff_eq.mp hbe
    have hslen : 1 ≤ s.data.length := by
      cases hd : s.data with
      | nil => exact absurd hd hs
      | cons c cs => exact Nat.succ_le_succ (Nat.zero_le _)
    have hlen : (x.data ++ [']']).length = x.data.length + 1 := by
      simp [List.length_append]
    by_cases hle : s.data.length ≤ x.data.length + 1
    · have hn : (x.data ++ [']']).length - s.data.length ≤ x.data.length := by
        rw [hlen]
        omega
      rw [List.drop_append_of_le_length hn] at heq
      have : s.data.getLast? = some ']' := by
        rw [heq]
        exact List.getLast?_concat _
      exact hlast this
    · have hn : (x.data ++ [']']).length - s.data.length = 0 := by
        rw [hlen]
        omega
      rw [hn, List.drop_zero] at heq
      have : s.data.length = x.data.length + 1 := by
        rw [heq, List.length_append]
        rfl
      omega

theorem skip_paths_last_char :
    ∀ s ∈ SKIP_RNA_PATHS, s.data ≠ [] ∧ s.data.getLast? ≠ some ']' := by
  decide

theorem goodKey_of_filter_pass {path : String}
    (h : (SKIP_RNA_PATHS.any fun s => strEndsWith path s) = false) :
    goodKey path := by
  intro s hs
  have := List.any_eq_false.mp h s hs
  revert this
  cases strEndsWith path s with
  | true => intro h'; exact absurd rfl h'
  | false => intro _; rfl

theorem goodKey_bracket (x : String) : goodKey (x ++ "]") := by
  intro s hs
  rcases skip_paths_last_char s hs with ⟨h1, h2⟩
  exact endsWith_concat_bracket_false x s h1 h2

set_option maxHeartbeats 2000000

theorem goodDict_dInsert {out : List (String × PyVal)} {path : String}
    {v : PyVal} (hgood : goodKey path)
    (hout : ∀ k ∈ keysOf out, goodKey k) :
    ∀ k ∈ keysOf (dInsert out path v), goodKey k := by
  intro k hk
  rcases mem_keys_dInsert hk with h | h
  · exact h ▸ hgood
  · exact hout k h

/-! Unfolding equations for the walker step functions, proved by
definitional reduction on the head constructor. -/

theorem walkPropStep_eq_raises (ident ptype : String) (ro icoll : Bool)
    (msg base : String) (out : List (String × PyVal)) :
    walkPropStep (.mk ident ptype ro icoll (.raises msg)) base out =
      (if ro || ident == "rna_type" then out
      else if SKIP_RNA_PATHS.any
          (fun s => strEndsWith (pathOf base ident) s) then out
      else dInsert out (pathOf base ident)
        (.str ("<error:" ++ msg ++ ">"))) := rfl

theorem walkPropStep_eq_prim (ident ptype : String) (ro icoll : Bool)
    (bv : BVal) (base : String) (out : List (String × PyVal)) :
    walkPropStep (.mk ident ptype ro icoll (.prim bv)) base out =
      (if ro || ident == "rna_type" then out
      else if SKIP_RNA_PATHS.any
          (fun s => strEndsWith (pathOf base ident) s) then out
      else if PRIMITIVE_TYPES.contains ptype then
        dInsert out (pathOf base ident) (serialise bv)
      else if ptype == "POINTER" then dUpdate out []
      else if icoll then
        dInsert out (pathOf base ident) (.str "<error:not iterable>")
      else dInsert out (pathOf base ident) (serialise bv)) := rfl

theorem walkPropStep_eq_ptrNone (ident ptype : String) (ro icoll : Bool)
    (base : String) (out : List (String × PyVal)) :
    walkPropStep (.mk ident ptype ro icoll .ptrNone) base out =
      (if ro || ident == "rna_type" then out
      else if SKIP_RNA_PATHS.any
          (fun s => strEndsWith (pathOf base ident) s) then out
      else if PRIMITIVE_TYPES.contains ptype then
        dInsert out (pathOf base ident) (serialise (propRaw .ptrNone))
      else if ptype == "POINTER" then
        dInsert out (pathOf base ident) PyVal.none
      else if icoll then
        dInsert out (pathOf base ident) (.str "<error:not iterable>")
      else dInsert out (pathOf base ident)
        (serialise (propRaw .ptrNone))) := rfl

theorem walkPropStep_eq_ptrID (ident ptype : String) (ro icoll : Bool)
    (c n base : String) (out : List (String × PyVal)) :
    walkPropStep (.mk ident ptype ro icoll (.ptrID c n)) base out =
      (if ro || ident == "rna_type" then out
      else if SKIP_RNA_PATHS.any
          (fun s => strEndsWith (pathOf base ident) s) then out
      else if PRIMITIVE_TYPES.contains ptype then
        dInsert out (pathOf base ident) (serialise (propRaw (.ptrID c n)))
      else if ptype == "POINTER" then
        dInsert out (pathOf base ident) (.str (c ++ ":" ++ n))
      else if icoll then
        dInsert out (pathOf base ident) (.str "<error:not iterable>")
      else dInsert out (pathOf base ident)
        (serialise (propRaw (.ptrID c n)))) := rfl

theorem walkPropStep_eq_ptrStruct (ident ptype : String) (ro icoll : Bool)
    (s : RnaObj) (base : String) (out : List (String × PyVal)) :
    walkPropStep (.mk ident ptype ro icoll (.ptrStruct s)) base out =
      (if ro || ident == "rna_type" then out
      else if SKIP_RNA_PATHS.any
          (fun s' => strEndsWith (pathOf base ident) s') then out
      else if PRIMITIVE_TYPES.contains ptype then
        dInsert out (pathOf base ident) (serialise (propRaw (.ptrStruct s)))
      else if ptype == "POINTER" then
        dUpdate out (walkRna s (pathOf base ident))
      else if icoll then
        dInsert out (pathOf base ident) (.str "<error:not iterable>")
      else dInsert out (pathOf base ident)
        (serialise (propRaw (.ptrStruct s)))) := rfl

theorem walkPropStep_eq_coll (ident ptype : String) (ro icoll : Bool)
    (items : List CollItem) (err : Option String) (base : String)
    (out : List (String × PyVal)) :
    walkPropStep (.mk ident ptype ro icoll (.coll items err)) base out =
      (if ro || ident == "rna_type" then out
      else if SKIP_RNA_PATHS.any
          (fun s => strEndsWith (pathOf base ident) s) then out
      else if PRIMITIVE_TYPES.contains ptype then
        dInsert out (pathOf base ident)
          (serialise (propRaw (.coll items err)))
      else if ptype == "POINTER" then dUpdate out []
      else if icoll then
        match err with
        | some msg =>
            dInsert (walkItems items 0 (pathOf base ident) out)
              (pathOf base ident) (.str ("<error:" ++ msg ++ ">"))
        | Option.none => walkItems items 0 (pathOf base ident) out
      else dInsert out (pathOf base ident)
        (serialise (propRaw (.coll items err)))) := rfl

theorem walkItemStep_eq_idRef (c n : String) (nm : Option String)
    (idx : Nat) (path : String) (out : List (String × PyVal)) :
    walkItemStep (.idRef c n nm) idx path out =
      dInsert out (subpathOf path nm idx) (.str (c ++ ":" ++ n)) := rfl

theorem walkItemStep_eq_sub (nm : Option String) (s : RnaObj) (idx : Nat)
    (path : String) (out : List (String × PyVal)) :
    walkItemStep (.sub nm s) idx path out =
      dUpdate out (walkRna s (subpathOf path nm idx)) := rfl

/-- The common skip prelude of one `_walk_rna` loop iteration: read-only
or `rna_type` properties and excluded path suffixes leave `out` untouched;
otherwise the branch body runs at a path that passed the filter. -/
theorem skip_prelude_good {out : List (String × PyVal)}
    (hout : ∀ k ∈ keysOf out, goodKey k)
    (ident : String) (ro : Bool) (base : String)
    (body : String → List (String × PyVal))
    (hbody : ∀ path, goodKey path → ∀ k ∈ keysOf (body path), goodKey k) :
    ∀ k ∈ keysOf (if ro || ident == "rna_type" then out
      else if SKIP_RNA_PATHS.any
          (fun s => strEndsWith (pathOf base ident) s) then out
      else body (pathOf base ident)), goodKey k := by
  by_cases hro : (ro || ident == "rna_type") = true
  · rw [if_pos hro]
    exact hout
  · rw [if_neg hro]
    by_cases hskip : (SKIP_RNA_PATHS.any fun s =>
        strEndsWith (pathOf base ident) s) = true
    · rw [if_pos hskip]
      exact hout
    · rw [if_neg hskip]
      exact hbody _ (goodKey_of_filter_pass (Bool.eq_false_iff.mpr hskip))

mutual
theorem walkRna_good : ∀ (o : RnaObj) (base : String),
    ∀ k ∈ keysOf (walkRna o base), goodKey k
  | .mk ps, base => by
    rw [walkRna]
    exact walkProps_good ps base [] (fun k hk => absurd hk (List.not_mem_nil k))

theorem walkProps_good : ∀ (ps : List RnaProp) (base : String)
    (out : List (String × PyVal)),
    (∀ k ∈ keysOf out, goodKey k) →
    ∀ k ∈ keysOf (walkProps ps base out), goodKey k
  | [], _, out, hout => by
    rw [walkProps]
    exact hout
  | p :: rest, base, out, hout => by
    rw [walkProps]
    exact walkProps_good rest base _ (walkPropStep_good p base out hout)

theorem walkPropStep_good : ∀ (p : RnaProp) (base : String)
    (out : List (String × PyVal)),
    (∀ k ∈ keysOf out, goodKey k) →
    ∀ k ∈ keysOf (walkPropStep p base out), goodKey k
  | .mk ident ptype ro icoll v, base, out, hout => by
    have hupd0 : ∀ k ∈ keysOf (dUpdate out
        ([] : List (String × PyVal))), goodKey k := by
      intro k hk
      rcases mem_keys_dUpdate hk with h | h
      · exact hout k h
      · cases h
    cases v with
    | raises msg =>
      rw [walkPropStep_eq_raises]
      refine skip_prelude_good hout ident ro base
        (fun path => dInsert out path
          (.str ("<error:" ++ msg ++ ">"))) ?_
      intro path hgood
      exact goodDict_dInsert hgood hout
    | prim bv =>
      rw [walkPropStep_eq_prim]
      refine skip_prelude_good hout ident ro base
        (fun path =>
          if PRIMITIVE_TYPES.contains ptype then
            dInsert out path (serialise bv)
          else if ptype == "POINTER" then dUpdate out []
          else if icoll then
            dInsert out path (.str "<error:not iterable>")
          else dInsert out path (serialise bv)) ?_
      intro path hgood
      repeat' split
      all_goals
        first
        | exact goodDict_dInsert hgood hout
        | exact hupd0
    | ptrNone =>
      rw [walkPropStep_eq_ptrNone]
      refine skip_prelude_good hout ident ro base
        (fun path =>
          if PRIMITIVE_TYPES.contains ptype then
            dInsert out path (serialise (propRaw .ptrNone))
          else if ptype == "POINTER" then dInsert out path PyVal.none
          else if icoll then
            dInsert out path (.str "<error:not iterable>")
          else dInsert out path (serialise (propRaw .ptrNone))) ?_
      intro path hgood
      repeat' split
      all_goals exact goodDict_dInsert hgood hout
    | ptrID c n =>
      rw [walkPropStep_eq_ptrID]
      refine skip_prelude_good hout ident ro base
        (fun path =>
          if PRIMITIVE_TYPES.contains ptype then
            dInsert out path (serialise (propRaw (.ptrID c n)))
          else if ptype == "POINTER" then
            dInsert out path (.str (c ++ ":" ++ n))
          else if icoll then
            dInsert out path (.str "<error:not iterable>")
          else dInsert out path (serialise (propRaw (.ptrID c n)))) ?_
      intro path hgood
      repeat' split
      all_goals exact goodDict_dInsert hgood hout
    | ptrStruct s =>
      rw [walkPropStep_eq_ptrStruct]
      refine skip_prelude_good hout ident ro base
        (fun path =>
          if PRIMITIVE_TYPES.contains ptype then
            dInsert out path (serialise (propRaw (.ptrStruct s)))
          else if ptype == "POINTER" then
            dUpdate out (walkRna s path)
          else if icoll then
            dInsert out path (.str "<error:not iterable>")
          else dInsert out path (serialise (propRaw (.ptrStruct s)))) ?_
      intro path hgood
      repeat' split
      all_goals
        first
        | exact goodDict_dInsert hgood hout
        | (intro k hk
           rcases mem_keys_dUpdate hk with h | h
           · exact hout k h
           · exact walkRna_good s path k h)
    | coll items err =>
      rw [walkPropStep_eq_coll]
      refine skip_prelude_good hout ident ro base
        (fun path =>
          if PRIMITIVE_TYPES.contains ptype then
            dInsert out path (serialise (propRaw (.coll items err)))
          else if ptype == "POINTER" then dUpdate out []
          else if icoll then
            match err with
            | some msg =>
                dInsert (walkItems items 0 path out) path
                  (.str ("<error:" ++ msg ++ ">"))
            | Option.none => walkItems items 0 path out
          else dInsert out path (serialise (propRaw (.coll items err)))) ?_
      intro path hgood
      have hout2 : ∀ k ∈ keysOf (walkItems items 0 path out), goodKey k :=
        walkItems_good items 0 path out hout
      repeat' split
      all_goals
        first
        | exact goodDict_dInsert hgood hout
        | exact hupd0
        | exact goodDict_dInsert hgood hout2
        | exact hout2

theorem walkItems_good : ∀ (items : List CollItem) (idx : Nat)
    (path : String) (out : List (String × PyVal)),
    (∀ k ∈ keysOf out, goodKey k) →
    ∀ k ∈ keysOf (walkItems items idx path out), goodKey k
  | [], _, _, out, hout => by
    rw [walkItems]
    exact hout
  | item :: rest, idx, path, out, hout => by
    rw [walkItems]
    exact walkItems_good rest (idx + 1) path _
      (walkItemStep_good item idx path out hout)

theorem walkItemStep_good : ∀ (item : CollItem) (idx : Nat) (path : String)
    (out : List (String × PyVal)),
    (∀ k ∈ keysOf out, goodKey k) →
    ∀ k ∈ keysOf (walkItemStep item idx path out), goodKey k
  | .idRef c n nm, idx, path, out, hout => by
    rw [walkItemStep_eq_idRef]
    exact goodDict_dInsert (goodKey_bracket _) hout
  | .sub nm s, idx, path, out, hout => by
    rw [walkItemStep_eq_sub]
    intro k hk
    rcases mem_keys_dUpdate hk with h | h
    · exact hout k h
    · exact walkRna_good s _ k h
end

set_option maxHeartbeats 200000

/-- C5: for every entity walked by the graph walker, no key of the
resulting props map ends with any suffix of the excluded-paths policy set:
excluded paths are skipped entirely, at top level, on recursively extended
paths, and on collection-element subpaths alike (the latter end in a
closing bracket, which no policy suffix contains). -/
theorem walk_skips_excluded_paths (o : RnaObj) (base : String) :
    ∀ s ∈ SKIP_RNA_PATHS, ∀ k ∈ keysOf (walkRna o base),
      strEndsWith k s = false :=
  fun s hs k hk => walkRna_good o base k hk s hs

/-- Witness for C5: a struct holding a primitive `name` property, a
`vertices` collection, an embedded struct with an inner `rna_type` and
`matrix_world`, and a `pixels` payload walks to exactly the one key
`name`, which matches no excluded suffix. -/
theorem walk_skips_excluded_paths_witness :
    keysOf (walkRna (RnaObj.mk
      [RnaProp.mk "name" "STRING" false false (PropVal.prim (BVal.str "Cube")),
       RnaProp.mk "vertices" "FLOAT" false true (PropVal.coll [] Option.none),
       RnaProp.mk "modifiers" "POINTER" false false (PropVal.ptrStruct
         (RnaObj.mk
           [RnaProp.mk "matrix_world" "FLOAT" false false
             (PropVal.prim (BVal.float "1.0")),
            RnaProp.mk "rna_type" "STRING" false false
              (PropVal.prim (BVal.str "t"))])),
       RnaProp.mk "pixels" "INT" false true (PropVal.coll [] Option.none)])
      "") = ["name"] ∧
    strEndsWith "name" "vertices" = false :=
  ⟨rfl, walk_skips_excluded_paths (RnaObj.mk
      [RnaProp.mk "name" "STRING" false false (PropVal.prim (BVal.str "Cube")),
       RnaProp.mk "vertices" "FLOAT" false true (PropVal.coll [] Option.none),
       RnaProp.mk "modifiers" "POINTER" false false (PropVal.ptrStruct
         (RnaObj.mk
           [RnaProp.mk "matrix_world" "FLOAT" false false
             (PropVal.prim (BVal.float "1.0")),
            RnaProp.mk "rna_type" "STRING" false false
              (PropVal.prim (BVal.str "t"))])),
       RnaProp.mk "pixels" "INT" false true (PropVal.coll [] Option.none)])
      "" "vertices" (by decide) "name" (by decide)⟩

mutual
theorem pyBeq_refl : ∀ v : PyVal, pyBeq v v = true
  | .none => rfl
  | .bool b => by simp [pyBeq]
  | .int n => by simp [pyBeq]
  | .float t => by simp [pyBeq]
  | .str s => by simp [pyBeq]
  | .list xs => by
    rw [pyBeq]
    exact pyBeqList_refl xs

theorem pyBeqList_refl : ∀ xs : List PyVal, pyBeqList xs xs = true
  | [] => rfl
  | x :: xs => by
    rw [pyBeqList, pyBeq_refl x, pyBeqList_refl xs]
    rfl
end

theorem safe_cmp_self (a : PyVal) : safe_cmp a a = false := by
  rw [safe_cmp, pyBeq_refl a]
  rfl

theorem dGet?_not_mem {β : Type} {l : List (String × β)} {k : String}
    (h : ¬ k ∈ keysOf l) : dGet? l k = Option.none :=
  Option.not_isSome_iff_eq_none.mp
    (fun hs => h ((dGet?_isSome_iff_mem l k).mp hs))

theorem dGet?_append_left {κ β : Type} [BEq κ] {l : List (κ × β)}
    (m : List (κ × β)) {k : κ} {v : β} (h : dGet? l k = some v) :
    dGet? (l ++ m) k = some v := by
  induction l with
  | nil => cases h
  | cons p t ih =>
    rw [List.cons_append]
    unfold dGet? at h ⊢
    split at h
    · rw [if_pos (by assumption)]
      exact h
    · rw [if_neg (by assumption)]
      exact ih h

theorem dGet?_append_of_not_mem {β : Type} {l : List (String × β)}
    (m : List (String × β)) {k : String} (h : ¬ k ∈ keysOf l) :
    dGet? (l ++ m) k = dGet? m k := by
  induction l with
  | nil => rfl
  | cons p t ih =>
    rw [List.cons_append]
    have hp : (p.1 == k) = false := by
      rw [beq_eq_false_iff_ne]
      intro he
      exact h (List.mem_cons.mpr (Or.inl he.symm))
    show (if (p.1 == k) = true then some p.2 else dGet? (t ++ m) k) =
      dGet? m k
    rw [hp]
    simp only [Bool.false_eq_true, if_false]
    exact ih (fun hm => h (List.mem_cons.mpr (Or.inr hm)))

theorem filter_not_contains_self (l : List String) :
    (l.filter fun k => !(l.contains k)) = [] := by
  rw [List.filter_eq_nil_iff]
  intro a ha
  have hc : l.contains a = true := List.elem_iff.mpr ha
  simp [hc, ha]

theorem str_append_cancel_left {a b c : String} (h : a ++ b = a ++ c) :
    b = c := by
  apply String.ext
  have hd := congrArg String.data h
  rw [String.data_append, String.data_append] at hd
  exact List.append_cancel_left hd

theorem str_append_cancel_right {a b c : String} (h : a ++ c = b ++ c) :
    a = b := by
  apply String.ext
  have hd := congrArg String.data h
  rw [String.data_append, String.data_append] at hd
  exact List.append_cancel_right hd

theorem strConcat_congr {f g : String → String} :
    ∀ (S : List String), (∀ k ∈ S, f k = g k) →
      strConcat (S.map f) = strConcat (S.map g)
  | [], _ => rfl
  | s :: S, h => by
    rw [List.map_cons, List.map_cons, strConcat, strConcat,
      h s (List.mem_cons_self s S),
      strConcat_congr S (fun k hk => h k (List.mem_cons.mpr (Or.inr hk)))]

theorem strConcat_map_eq_at {f g : String → String} {k0 : String} :
    ∀ (S : List String), S.Nodup → k0 ∈ S →
      (∀ k ∈ S, k ≠ k0 → f k = g k) →
      strConcat (S.map f) = strConcat (S.map g) → f k0 = g k0
  | [], _, hk, _, _ => absurd hk (List.not_mem_nil k0)
  | s :: S, hnd, hk, hfg, heq => by
    rw [List.map_cons, List.map_cons, strConcat, strConcat] at heq
    by_cases hs : s = k0
    · subst hs
      have htail : strConcat (S.map f) = strConcat (S.map g) := by
        apply strConcat_congr
        intro k hkS
        have : k ≠ s := fun he =>
          (List.nodup_cons.mp hnd).1 (he ▸ hkS)
        exact hfg k (List.mem_cons.mpr (Or.inr hkS)) this
      rw [htail] at heq
      have hd := congrArg String.data heq
      rw [String.data_append, String.data_append] at hd
      apply String.ext
      exact List.append_cancel_right hd
    · have hfs : f s = g s :=
        hfg s (List.mem_cons_self s S) hs
      rw [hfs] at heq
      have htail := str_append_cancel_left heq
      have hkS : k0 ∈ S := by
        rcases List.mem_cons.mp hk with h | h
        · exact absurd h.symm hs
        · exact h
      exact strConcat_map_eq_at S (List.nodup_cons.mp hnd).2 hkS
        (fun k hk' hne => hfg k (List.mem_cons.mpr (Or.inr hk')) hne) htail

theorem snapshot_single_object (cls nameX dn t : String) (r : RnaObj) :
    snapshot_current
        [("objects", [⟨cls, nameX, true, [], true, some dn, t, false, r⟩])]
        Option.none true =
      [("Object:stable:" ++ dn ++ ":" ++ t,
        ⟨cls, dSetdefault (walkRna r "") "name" (PyVal.str nameX),
         hashStream (dSetdefault (walkRna r "") "name" (PyVal.str nameX)),
         some "objects"⟩)] := rfl

theorem dSetdefault_not_mem {β : Type} {l : List (String × β)} {k : String}
    (v : β) (h : ¬ k ∈ keysOf l) : dSetdefault l k v = l ++ [(k, v)] := by
  unfold dSetdefault
  rw [dGet?_not_mem h]

theorem keysOf_append_name (w : List (String × PyVal)) (v : PyVal) :
    keysOf (w ++ [("name", v)]) = keysOf w ++ ["name"] := by
  simp [keysOf]

theorem hashStream_name_ne (w : List (String × PyVal))
    (hnd : (keysOf w).Nodup) (hmem : ¬ "name" ∈ keysOf w)
    {a b : String} (hne : a ≠ b) :
    hashStream (w ++ [("name", PyVal.str a)]) ≠
      hashStream (w ++ [("name", PyVal.str b)]) := by
  intro heq
  unfold hashStream at heq
  rw [keysOf_append_name, keysOf_append_name] at heq
  have hKnd : (keysOf w ++ ["name"]).Nodup := by
    rw [List.nodup_append]
    refine ⟨hnd, List.nodup_singleton _, ?_⟩
    intro x hx hx'
    rw [List.mem_singleton] at hx'
    subst hx'
    exact hmem hx
  have hperm := List.perm_insertionSort
    (fun x y : String => strLeB x y = true) (keysOf w ++ ["name"])
  have hSnd : (sortKeys (keysOf w ++ ["name"])).Nodup :=
    hperm.symm.nodup hKnd
  have hSmem : "name" ∈ sortKeys (keysOf w ++ ["name"]) :=
    hperm.mem_iff.mpr (List.mem_append.mpr (Or.inr (List.mem_singleton.mpr rfl)))
  have hpoint : ∀ k ∈ sortKeys (keysOf w ++ ["name"]), k ≠ "name" →
      (fun k => k ++ pyStr
        ((dGet? (w ++ [("name", PyVal.str a)]) k).getD PyVal.none)) k =
      (fun k => k ++ pyStr
        ((dGet? (w ++ [("name", PyVal.str b)]) k).getD PyVal.none)) k := by
    intro k hkS hkne
    have hkK : k ∈ keysOf w ++ ["name"] := hperm.mem_iff.mp hkS
    have hkw : k ∈ keysOf w := by
      rcases List.mem_append.mp hkK with h | h
      · exact h
      · exact absurd (List.mem_singleton.mp h) hkne
    obtain ⟨v, hv⟩ : ∃ v, dGet? w k = some v :=
      Option.isSome_iff_exists.mp ((dGet?_isSome_iff_mem w k).mpr hkw)
    simp only [dGet?_append_left _ hv]
  have hmain := strConcat_map_eq_at
    (sortKeys (keysOf w ++ ["name"])) hSnd hSmem hpoint heq
  simp only [dGet?_append_of_not_mem _ hmem] at hmain
  have hsing : ∀ (x : String),
      dGet? [("name", PyVal.str x)] "name" = some (PyVal.str x) := by
    intro x
    simp [dGet?]
  rw [hsing a, hsing b] at hmain
  exact hne (str_append_cancel_left hmain)

theorem diff_props_rename (w : List (String × PyVal))
    (hmem : ¬ "name" ∈ keysOf w) {a b : String} (hne : a ≠ b) :
    diff_props (w ++ [("name", PyVal.str a)]) (w ++ [("name", PyVal.str b)]) =
      [("name", ⟨PyVal.str a, PyVal.str b⟩)] := by
  unfold diff_props unionKeys
  rw [keysOf_append_name, keysOf_append_name]
  rw [show ((keysOf w ++ ["name"]).filter fun k =>
      !((keysOf w ++ ["name"]).contains k)) = [] from
    filter_not_contains_self _]
  rw [List.append_nil, List.filterMap_append]
  have h1 : ((keysOf w).filterMap fun k =>
      if safe_cmp (pgetD (w ++ [("name", PyVal.str a)]) k)
        (pgetD (w ++ [("name", PyVal.str b)]) k) then
        some (k, DiffCell.mk (pgetD (w ++ [("name", PyVal.str a)]) k)
          (pgetD (w ++ [("name", PyVal.str b)]) k))
      else Option.none) = [] := by
    rw [List.filterMap_eq_nil_iff]
    intro k hk
    obtain ⟨v, hv⟩ : ∃ v, dGet? w k = some v :=
      Option.isSome_iff_exists.mp ((dGet?_isSome_iff_mem w k).mpr hk)
    have hget : pgetD (w ++ [("name", PyVal.str a)]) k = v := by
      unfold pgetD
      rw [dGet?_append_left _ hv]
      rfl
    have hget' : pgetD (w ++ [("name", PyVal.str b)]) k = v := by
      unfold pgetD
      rw [dGet?_append_left _ hv]
      rfl
    rw [hget, hget', safe_cmp_self]
    rfl
  rw [h1, List.nil_append]
  have hga : pgetD (w ++ [("name", PyVal.str a)]) "name" = PyVal.str a := by
    unfold pgetD
    rw [dGet?_append_of_not_mem _ hmem]
    simp [dGet?]
  have hgb : pgetD (w ++ [("name", PyVal.str b)]) "name" = PyVal.str b := by
    unfold pgetD
    rw [dGet?_append_of_not_mem _ hmem]
    simp [dGet?]
  rw [List.filterMap_cons]
  rw [hga, hgb]
  have hcmp : safe_cmp (PyVal.str a) (PyVal.str b) = true := by
    unfold safe_cmp pyBeq
    rw [beq_eq_false_iff_ne.mpr hne]
    rfl
  rw [if_pos hcmp]
  rfl

theorem addedKeysOf_singleton_same (k : String) (b1 b2 : Block) :
    addedKeysOf [(k, b1)] [(k, b2)] = [] := by
  unfold addedKeysOf keysOf
  simp

theorem commonKeys_singleton_same (k : String) (b1 b2 : Block) :
    commonKeys [(k, b1)] [(k, b2)] = [k] := by
  unfold commonKeys keysOf
  simp

/-- C2: for two snapshots in which an Object entity differs only by its
name (identity resolved by the stable-container strategy from linked-data
name and object subtype, hence unchanged by the rename), the diff reports
the entity under `changed` with a before/after delta on the `name` field,
and it appears in neither `added` nor `removed`. -/
theorem rename_only_reported_as_changed
    (cls nameA nameB dn t : String) (r : RnaObj)
    (hne : nameA ≠ nameB)
    (hmem : ¬ "name" ∈ keysOf (walkRna r ""))
    (hnd : (keysOf (walkRna r "")).Nodup) :
    diff_snapshots
        (snapshot_current
          [("objects", [⟨cls, nameA, true, [], true, some dn, t, false, r⟩])]
          Option.none true)
        (snapshot_current
          [("objects", [⟨cls, nameB, true, [], true, some dn, t, false, r⟩])]
          Option.none true) =
      { added := []
        removed := []
        changed := [("objects", [(PyVal.str nameB,
          [("name", ⟨PyVal.str nameA, PyVal.str nameB⟩)])])] } := by
  rw [snapshot_single_object, snapshot_single_object]
  rw [dSetdefault_not_mem _ hmem]
  rw [dSetdefault_not_mem _ hmem]
  have hhash := hashStream_name_ne (walkRna r "") hnd hmem hne
  unfold diff_snapshots
  rw [addedKeysOf_singleton_same, addedKeysOf_singleton_same]
  rw [show (changedOf
      [("Object:stable:" ++ dn ++ ":" ++ t,
        ⟨cls, walkRna r "" ++ [("name", PyVal.str nameA)],
         hashStream (walkRna r "" ++ [("name", PyVal.str nameA)]),
         some "objects"⟩)]
      [("Object:stable:" ++ dn ++ ":" ++ t,
        ⟨cls, walkRna r "" ++ [("name", PyVal.str nameB)],
         hashStream (walkRna r "" ++ [("name", PyVal.str nameB)]),
         some "objects"⟩)]) =
    [("objects", [(PyVal.str nameB,
      [("name", ⟨PyVal.str nameA, PyVal.str nameB⟩)])])] from ?_]
  · rfl
  unfold changedOf
  rw [commonKeys_singleton_same]
  rw [List.foldl_cons, List.foldl_nil]
  unfold changedBody
  have hget : ∀ (blk : Block),
      dGet? [("Object:stable:" ++ dn ++ ":" ++ t, blk)]
        ("Object:stable:" ++ dn ++ ":" ++ t) = some blk := by
    intro blk
    simp [dGet?]
  rw [hget, hget]
  simp only [Option.getD_some]
  rw [show ((⟨cls, walkRna r "" ++ [("name", PyVal.str nameA)],
      hashStream (walkRna r "" ++ [("name", PyVal.str nameA)]),
      some "objects"⟩ : Block).hash ==
    (⟨cls, walkRna r "" ++ [("name", PyVal.str nameB)],
      hashStream (walkRna r "" ++ [("name", PyVal.str nameB)]),
      some "objects"⟩ : Block).hash) = false from beq_eq_false_iff_ne.mpr hhash]
  simp only [Bool.false_eq_true, if_false]
  rw [diff_props_rename (walkRna r "") hmem hne]
  simp only [List.isEmpty_cons, Bool.false_eq_true, if_false]
  rw [show (dGet? (walkRna r "" ++ [("name", PyVal.str nameB)]) "name") =
    some (PyVal.str nameB) from by
      rw [dGet?_append_of_not_mem _ hmem]
      simp [dGet?]]
  rfl

/-- Witness for C2: an object renamed from `Cube` to `Cube.001`, same
linked mesh and subtype, walks to a one-property RNA struct; the diff is
exactly a `name` delta under `changed`. -/
theorem rename_only_reported_as_changed_witness :
    diff_snapshots
        (snapshot_current
          [("objects", [⟨"Object", "Cube", true, [], true, some "Mesh",
            "MESH", false,
            RnaObj.mk [RnaProp.mk "hide_select" "BOOLEAN" false false
              (PropVal.prim (BVal.bool false))]⟩])]
          Option.none true)
        (snapshot_current
          [("objects", [⟨"Object", "Cube.001", true, [], true, some "Mesh",
            "MESH", false,
            RnaObj.mk [RnaProp.mk "hide_select" "BOOLEAN" false false
              (PropVal.prim (BVal.bool false))]⟩])]
          Option.none true) =
      { added := []
        removed := []
        changed := [("objects", [(PyVal.str "Cube.001",
          [("name", ⟨PyVal.str "Cube", PyVal.str "Cube.001"⟩)])])] } :=
  rename_only_reported_as_changed "Object" "Cube" "Cube.001" "Mesh" "MESH"
    (RnaObj.mk [RnaProp.mk "hide_select" "BOOLEAN" false false
      (PropVal.prim (BVal.bool false))])
    (by decide) (by decide) (by decide)

end BlendDiff
